import Mathlib

/-!
Verification of the go-fAST repository: a shallow embedding of the parser's
error collector (package parser), of the ESTree JSON serializer (package
serializer), and — where the repository snapshot does not include the code —
of parser/token behaviour modelled from the specification.

Go strings are modelled as `List Char`; every byte the embedded code
inspects is ASCII, where Go's byte-wise iteration and the character-wise
model coincide.
-/

/-! ## Error collector (package parser) -/

/-- SyntaxError represents a parsing error with position information. -/
structure SyntaxError where
  message : String
  line : Nat
  column : Nat
  offset : Nat
deriving Repr, DecidableEq

/-- Method SyntaxError.Error: fmt.Sprintf of the message with the 1-based
line and column. -/
def SyntaxError.render (e : SyntaxError) : String :=
  e.message ++ " (line " ++ Nat.repr e.line ++ ", column " ++ Nat.repr e.column ++ ")"

/-- The loop of positionToLineColumn: starting from line 1 and column 1 it
advances one byte at a time while the index is below both the requested
offset and the length of the source, bumping the line and resetting the
column on each newline byte. -/
def plcGo : List Char → Nat → Nat → Nat → Nat × Nat
  | _, 0, line, col => (line, col)
  | [], _ + 1, line, col => (line, col)
  | c :: rest, n + 1, line, col =>
    if c = '\n' then plcGo rest n (line + 1) 1
    else plcGo rest n line (col + 1)

/-- positionToLineColumn converts a byte offset to line and column numbers. -/
def positionToLineColumn (src : List Char) (offset : Nat) : Nat × Nat :=
  plcGo src offset 1 1

/-- ErrorList is a list of SyntaxErrors. -/
abbrev ErrorList := List SyntaxError

/-- ErrorList.Add: converts the 1-based idx to a 0-based offset, clamping a
negative result to 0, derives line and column by scanning the source prefix,
and appends the new record. -/
def ErrorList.Add (e : ErrorList) (src : List Char) (idx : Int) (msg : String) : ErrorList :=
  let o : Int := idx - 1
  let offset : Nat := (if o < 0 then 0 else o).toNat
  let lc := positionToLineColumn src offset
  e ++ [⟨msg, lc.1, lc.2, offset⟩]

/-- Method ErrorList.Error: the summary rendering, switching on the length of
the list. -/
def ErrorList.render : ErrorList → String
  | [] => "no errors"
  | [e] => e.render
  | e :: rest => e.render ++ " (and " ++ Nat.repr rest.length ++ " more errors)"

/-- ErrorList.Err: returns nil when the list is empty and the list itself
otherwise (nil modelled as `none`). -/
def ErrorList.Err (e : ErrorList) : Option ErrorList :=
  if e.length = 0 then none else some e

/-! ### Characterisation of positionToLineColumn -/

/-- The predicate "this byte is not a newline", as scanned by the column
computation. -/
def notNL (c : Char) : Bool := c != '\n'

/-- Length of the run of non-newline bytes at the end of a prefix: the number
of bytes since the last newline. -/
def tailRun (l : List Char) : Nat := (l.reverse.takeWhile notNL).length

theorem takeWhile_all_eq_self (p : Char → Bool) (l : List Char) (h : l.all p) :
    l.takeWhile p = l := by
  induction l with
  | nil => rfl
  | cons b t ih =>
    simp only [List.all_cons, Bool.and_eq_true] at h
    simp [List.takeWhile_cons, h.1, ih h.2]

theorem takeWhile_snoc (p : Char → Bool) (l : List Char) (a : Char) :
    (l ++ [a]).takeWhile p =
      if l.all p then l ++ (if p a then [a] else []) else l.takeWhile p := by
  induction l with
  | nil => simp [List.takeWhile_cons]
  | cons b t ih =>
    by_cases hb : p b
    · simp only [List.cons_append, List.takeWhile_cons, hb, List.all_cons, ih]
      by_cases ht : t.all p <;> simp [ht, hb]
    · simp [List.takeWhile_cons, hb]

theorem all_notNL_iff (l : List Char) : l.all notNL = true ↔ '\n' ∉ l := by
  simp only [List.all_eq_true, notNL, bne_iff_ne]
  constructor
  · intro h hmem
    exact (h _ hmem) rfl
  · intro h x hx hxe
    exact h (hxe ▸ hx)

theorem tailRun_cons_nl (t : List Char) : tailRun ('\n' :: t) = tailRun t := by
  unfold tailRun
  rw [List.reverse_cons, takeWhile_snoc]
  by_cases h : t.reverse.all notNL
  · have : notNL '\n' = false := by decide
    rw [if_pos h, this]
    simp [takeWhile_all_eq_self notNL t.reverse h]
  · rw [if_neg h]

theorem tailRun_cons_other (t : List Char) (c : Char) (hc : ¬ c = '\n') :
    tailRun (c :: t) = if '\n' ∈ t then tailRun t else t.length + 1 := by
  unfold tailRun
  rw [List.reverse_cons, takeWhile_snoc]
  by_cases h : '\n' ∈ t
  · have hall : t.reverse.all notNL = false := by
      cases h1 : t.reverse.all notNL
      · rfl
      · exact absurd ((all_notNL_iff t.reverse).mp h1) (by simp [h])
    simp [hall, h]
  · have hall : t.reverse.all notNL = true := (all_notNL_iff t.reverse).mpr (by simp [h])
    have hpc : notNL c = true := by simp [notNL, hc]
    simp [hall, hpc, h, takeWhile_all_eq_self notNL t.reverse hall]

/-- The loop of positionToLineColumn computes: the line is the starting line
plus the number of newlines in the scanned prefix; the column is the length
of the trailing non-newline run of the prefix, plus 1 if the prefix contains
a newline and the starting column otherwise. -/
theorem plcGo_spec (src : List Char) : ∀ (n line col : Nat),
    plcGo src n line col =
      (line + ((src.take n).count '\n'),
       tailRun (src.take n) + (if '\n' ∈ src.take n then 1 else col)) := by
  induction src with
  | nil =>
    intro n line col
    cases n <;> simp [plcGo, tailRun]
  | cons c t ih =>
    intro n line col
    cases n with
    | zero => simp [plcGo, tailRun]
    | succ m =>
      rw [List.take_succ_cons]
      by_cases hc : c = '\n'
      · subst hc
        rw [show plcGo ('\n' :: t) (m + 1) line col = plcGo t m (line + 1) 1 from rfl, ih,
            Prod.mk.injEq]
        refine ⟨by simp [List.count_cons]; omega, ?_⟩
        have hm : ('\n' : Char) ∈ '\n' :: t.take m := List.mem_cons_self _ _
        rw [tailRun_cons_nl, if_pos hm, ite_self]
      · have hstep : plcGo (c :: t) (m + 1) line col = plcGo t m line (col + 1) := by
          rw [plcGo]
          simp [hc]
        rw [hstep, ih, Prod.mk.injEq]
        have hne : ¬ ('\n' : Char) = c := fun h => hc h.symm
        have hmem : ('\n' ∈ c :: t.take m) ↔ '\n' ∈ t.take m := by
          simp [List.mem_cons, hne]
        refine ⟨by simp [List.count_cons, hne], ?_⟩
        rw [tailRun_cons_other (t.take m) c hc]
        by_cases h : '\n' ∈ t.take m
        · simp [h, hmem]
        · have hlen : tailRun (t.take m) = (t.take m).length := by
            unfold tailRun
            rw [takeWhile_all_eq_self notNL _ ((all_notNL_iff _).mpr (by simp [h]))]
            simp
          rw [if_neg h, if_neg h, if_neg (by simp [hmem, h]), hlen]
          omega

/-- C2: for every source string, 1-based index and message, ErrorList.Add
appends exactly one SyntaxError whose Offset is the index minus 1 clamped to
0, whose Line is 1 plus the number of newline bytes in the source prefix of
length Offset, and whose Column is the number of bytes since the last
newline in that prefix plus 1 (the prefix, via List.take, stops at the end
of the source when Offset exceeds its length). -/
theorem errorlist_add_offset_line_column (e : ErrorList) (src : List Char)
    (idx : Int) (msg : String) :
    ErrorList.Add e src idx msg =
      e ++ [{ message := msg,
              line := 1 + ((src.take (max (idx - 1) 0).toNat).count '\n'),
              column := tailRun (src.take (max (idx - 1) 0).toNat) + 1,
              offset := (max (idx - 1) 0).toNat }] := by
  have hoff : ((if (idx - 1 : Int) < 0 then 0 else idx - 1)).toNat
      = (max (idx - 1) 0).toNat := by
    split <;> omega
  simp only [ErrorList.Add, positionToLineColumn, plcGo_spec, hoff, ite_self]

/-- C3: the summarized rendering of an ErrorList is "no errors" when the
list is empty, exactly the first error's rendering ("message (line L,
column C)") for a one-element list, and the first error's rendering
followed by " (and N more errors)" with N the length minus one otherwise. -/
theorem errorlist_error_rendering :
    (ErrorList.render [] = "no errors") ∧
    (∀ x : SyntaxError, ErrorList.render [x] =
      x.message ++ " (line " ++ Nat.repr x.line ++ ", column " ++ Nat.repr x.column ++ ")") ∧
    (∀ (x : SyntaxError) (rest : ErrorList), rest ≠ [] →
      ErrorList.render (x :: rest) =
        x.message ++ " (line " ++ Nat.repr x.line ++ ", column " ++ Nat.repr x.column ++ ")" ++
          " (and " ++ Nat.repr ((x :: rest).length - 1) ++ " more errors)") := by
  refine ⟨rfl, fun x => rfl, ?_⟩
  intro x rest hne
  cases rest with
  | nil => exact absurd rfl hne
  | cons y ys => rfl

/-- Witness for errorlist_error_rendering at a concrete two-element list. -/
theorem errorlist_error_rendering_witness :
    ErrorList.render [⟨"m", 1, 2, 0⟩, ⟨"n", 3, 4, 5⟩] =
      ("m" : String) ++ " (line " ++ Nat.repr 1 ++ ", column " ++ Nat.repr 2 ++ ")" ++
        " (and " ++ Nat.repr (([⟨"m", 1, 2, 0⟩, ⟨"n", 3, 4, 5⟩] : ErrorList).length - 1) ++
        " more errors)" :=
  errorlist_error_rendering.2.2 ⟨"m", 1, 2, 0⟩ [⟨"n", 3, 4, 5⟩] (List.cons_ne_nil _ _)

/-! ## ESTree serializer (package serializer)

The serializer appends to an output buffer; since each visit method only
appends, the embedding gives each visit method the string it appends.
Literal braces inside JSON output are written with \x7b and \x7d escapes. -/

/-- ast.Idx: a 1-based byte offset into the source; 0 is the unset
sentinel. Positions are nonnegative, modelled as Nat. -/
abbrev Idx := Nat

/-- toESTreePos converts a 1-based position to a 0-based ESTree position,
returning 0 when the position is the unset sentinel 0. -/
def toESTreePos (pos : Idx) : Nat :=
  if pos = 0 then 0 else pos - 1

/-- The smallInts table: the Go source spells out the decimal strings
"0" .. "99" literally, which is the decimal rendering of each index. -/
def smallInts : List String := (List.range 100).map Nat.repr

/-- writeInt: fast path through the smallInts table below 100,
strconv.Itoa otherwise. -/
def writeInt (n : Nat) : String :=
  if n < 100 then smallInts.getD n "" else Nat.repr n

/-- writeInt64, as used by writeNumber's integer fast path. -/
def writeInt64 (n : Int) : String :=
  if 0 ≤ n ∧ n < 100 then smallInts.getD n.toNat "" else Int.repr n

theorem writeInt_eq_repr (n : Nat) : writeInt n = Nat.repr n := by
  unfold writeInt smallInts
  by_cases h : n < 100
  · simp [List.getD, h]
  · rw [if_neg h]

/-- writeBool. -/
def writeBool (b : Bool) : String := if b then "true" else "false"

/-- The hex digit table indexed by writeString's control escapes. -/
def hexDigitChar (n : Nat) : Char := "0123456789abcdef".data.getD n '0'

/-- One iteration of Serializer.writeString's loop: the byte's escape. -/
def escapeChar (c : Char) : String :=
  if c = '"' then "\\\""
  else if c = '\\' then "\\\\"
  else if c = '\n' then "\\n"
  else if c = '\r' then "\\r"
  else if c = '\t' then "\\t"
  else if c.toNat < 0x20 then
    "\\u00" ++ String.singleton (hexDigitChar (c.toNat / 16)) ++
      String.singleton (hexDigitChar (c.toNat % 16))
  else String.singleton c

/-- Serializer.writeString: a quoted JSON string built from the per-byte
escapes. -/
def writeString (s : String) : String :=
  "\"" ++ String.join (s.data.map escapeChar) ++ "\""

/-- writePosition: the start and end fields from the node's Idx0 and Idx1,
converted to 0-based ESTree positions. -/
def writePosition (i0 i1 : Idx) : String :=
  "\"start\":" ++ writeInt (toESTreePos i0) ++ ",\"end\":" ++ writeInt (toESTreePos i1)

/-- writePositionStartOnly. -/
def writePositionStartOnly (start : Idx) : String :=
  "\"start\":" ++ writeInt (toESTreePos start)

/-- The binary operator tokens reached by the claims. -/
inductive BinOp where
  | plus | minus | mul | div | mod
deriving Repr, DecidableEq

/-- The operatorStrings table restricted to these operators: pre-quoted
operator text. -/
def operatorString : BinOp → String
  | .plus => "\"+\""
  | .minus => "\"-\""
  | .mul => "\"*\""
  | .div => "\"/\""
  | .mod => "\"%\""

/-- ast.Identifier: name, resolver stamp (ScopeContext, whose Go zero value
is 0), and span. -/
structure Ident where
  name : String
  scopeContext : Nat
  idx0 : Idx
  idx1 : Idx
deriving Repr, DecidableEq

/-- The expression subset of the ast package reached by the claims: number
literals (integer-valued, staying on writeNumber's writeInt64 fast path),
identifiers, and binary expressions. -/
inductive Expr where
  | number (value : Int) (raw : Option String) (idx0 idx1 : Idx)
  | identE (id : Ident)
  | binary (op : BinOp) (left right : Expr) (idx0 idx1 : Idx)
deriving Repr, DecidableEq

/-- VisitIdentifier: type, name, the scopeContext field only when the stamp
is nonzero, and the position. -/
def visitIdentifier (n : Ident) : String :=
  "\x7b\"type\":\"Identifier\",\"name\":" ++ writeString n.name ++
    (if n.scopeContext ≠ 0 then ",\"scopeContext\":" ++ writeInt n.scopeContext else "") ++
    "," ++ writePosition n.idx0 n.idx1 ++ "\x7d"

/-- VisitNumberLiteral, VisitIdentifier dispatch and
VisitBinaryExpression. -/
def serializeExpr : Expr → String
  | .number v raw i0 i1 =>
    "\x7b\"type\":\"Literal\",\"value\":" ++ writeInt64 v ++
      (match raw with
       | some r => ",\"raw\":" ++ writeString r
       | none => "") ++
      "," ++ writePosition i0 i1 ++ "\x7d"
  | .identE id => visitIdentifier id
  | .binary op l r i0 i1 =>
    "\x7b\"type\":\"BinaryExpression\",\"operator\":" ++ operatorString op ++
      ",\"left\":" ++ serializeExpr l ++ ",\"right\":" ++ serializeExpr r ++
      "," ++ writePosition i0 i1 ++ "\x7d"

/-- The statement subset of the ast package reached by the claims. -/
inductive Stmt where
  | exprStmt (e : Expr) (idx0 idx1 : Idx)
  | block (list : List Stmt) (scopeContext : Nat) (idx0 idx1 : Idx)
deriving Repr

mutual

/-- VisitExpressionStatement and VisitBlockStatement (the latter with its
conditional scopeContext field). -/
def serializeStmt : Stmt → String
  | .exprStmt e i0 i1 =>
    "\x7b\"type\":\"ExpressionStatement\",\"expression\":" ++ serializeExpr e ++
      "," ++ writePosition i0 i1 ++ "\x7d"
  | .block list sc i0 i1 =>
    "\x7b\"type\":\"BlockStatement\",\"body\":[" ++ serializeStmtList list ++ "]" ++
      (if sc ≠ 0 then ",\"scopeContext\":" ++ writeInt sc else "") ++
      "," ++ writePosition i0 i1 ++ "\x7d"

/-- The serializer's child loops: children joined with commas (a comma is
written before every child except the first). -/
def serializeStmtList : List Stmt → String
  | [] => ""
  | [s] => serializeStmt s
  | s :: rest => serializeStmt s ++ "," ++ serializeStmtList rest

end

/-- ast.Program: the serializer only reaches its Body. -/
structure Program where
  body : List Stmt

/-- A statement's Idx0. -/
def stmtIdx0 : Stmt → Idx
  | .exprStmt _ i0 _ => i0
  | .block _ _ i0 _ => i0

/-- A statement's Idx1. -/
def stmtIdx1 : Stmt → Idx
  | .exprStmt _ _ i1 => i1
  | .block _ _ _ i1 => i1

/-- Modelled from the spec: ast.Program's span accessors are not under src;
the serializer's own comment documents that Program.Idx0()/Idx1() panic on
an empty body. The panic is modelled as `none`; on a non-empty body they
return the first statement's start. -/
def programIdx0 (p : Program) : Option Idx := p.body.head?.map stmtIdx0

/-- Modelled from the spec: as programIdx0, returning the last statement's
end on a non-empty body and `none` (panic) on an empty one. -/
def programIdx1 (p : Program) : Option Idx := p.body.getLast?.map stmtIdx1

/-- VisitProgram: writes the body array and then the position only when the
body is non-empty, guarding the panicking accessors; a `none` result marks
a panic. -/
def visitProgram (p : Program) : Option String :=
  let base := "\x7b\"type\":\"Program\",\"body\":[" ++ serializeStmtList p.body ++ "]"
  if p.body.length > 0 then
    match programIdx0 p, programIdx1 p with
    | some i0, some i1 => some (base ++ "," ++ writePosition i0 i1 ++ "\x7d")
    | _, _ => none
  else
    some (base ++ "\x7d")

/-- ast.CaseStatement: the case keyword's position (field Case), the
optional test and the consequent statements. -/
structure CaseStatement where
  casePos : Idx
  test : Option Expr
  consequent : List Stmt

/-- Modelled from the spec: CaseStatement.Idx1() is not under src; the
serializer's comment documents that it panics on an empty Consequent,
modelled as `none`. -/
def caseIdx1 (n : CaseStatement) : Option Idx := n.consequent.getLast?.map stmtIdx1

/-- VisitCaseStatement: test (or null) and consequent array, then the full
position for a non-empty consequent but only the start field, taken from
the case keyword's position, for an empty one. -/
def visitCaseStatement (n : CaseStatement) : Option String :=
  let pre := "\x7b\"type\":\"SwitchCase\",\"test\":" ++
    (match n.test with
     | some t => serializeExpr t
     | none => "null") ++
    ",\"consequent\":[" ++ serializeStmtList n.consequent ++ "],"
  if n.consequent.length > 0 then
    match caseIdx1 n with
    | some i1 => some (pre ++ writePosition n.casePos i1 ++ "\x7d")
    | none => none
  else
    some (pre ++ writePositionStartOnly n.casePos ++ "\x7d")

/-- ast.VariableDeclarator as a function parameter: an identifier target
with an optional default initializer. -/
structure Param where
  target : Ident
  initializer : Option Expr
  idx0 : Idx
  idx1 : Idx
deriving Repr, DecidableEq

/-- serializeParam: an AssignmentPattern wrapper when a default initializer
is present, the bare target otherwise. -/
def serializeParam (p : Param) : String :=
  match p.initializer with
  | some init =>
    "\x7b\"type\":\"AssignmentPattern\",\"left\":" ++ visitIdentifier p.target ++
      ",\"right\":" ++ serializeExpr init ++ "," ++ writePosition p.idx0 p.idx1 ++ "\x7d"
  | none => visitIdentifier p.target

/-- The params loop: parameters joined with commas. -/
def serializeParamList : List Param → String
  | [] => ""
  | [p] => serializeParam p
  | p :: rest => serializeParam p ++ "," ++ serializeParamList rest

/-- ast.FunctionLiteral restricted to the fields the serializer touches;
binding targets are identifier patterns in this model. -/
structure FunctionLit where
  name : Option Ident
  params : List Param
  rest : Option Ident
  body : Stmt
  generator : Bool
  async : Bool
  scopeContext : Nat
  idx0 : Idx
  idx1 : Idx

/-- VisitFunctionLiteral: id, params (with optional rest element), body,
generator and async flags, the scopeContext field only when the stamp is
nonzero, and the position. -/
def visitFunctionLiteral (n : FunctionLit) : String :=
  "\x7b\"type\":\"FunctionExpression\",\"id\":" ++
    (match n.name with
     | some id => visitIdentifier id
     | none => "null") ++
    ",\"params\":[" ++ serializeParamList n.params ++
    (match n.rest with
     | some r =>
       (if n.params.length > 0 then "," else "") ++
         "\x7b\"type\":\"RestElement\",\"argument\":" ++ visitIdentifier r ++ "\x7d"
     | none => "") ++
    "],\"body\":" ++ serializeStmt n.body ++
    ",\"generator\":" ++ writeBool n.generator ++
    ",\"async\":" ++ writeBool n.async ++
    (if n.scopeContext ≠ 0 then ",\"scopeContext\":" ++ writeInt n.scopeContext else "") ++
    "," ++ writePosition n.idx0 n.idx1 ++ "\x7d"

/-! ## Parse result plumbing (cmd/wasm caller and spec contract) -/

/-- Modelled from the spec: parser.ParseFile itself is not under src. Per
the spec the parser accumulates diagnostics in the collector and the caller
receives the built Program exactly when the collector stayed empty, and
otherwise the non-empty list via ErrorList.Err — parseFileResult is this
final plumbing applied to the built tree and the collector's final state. -/
def parseFileResult (prog : Program) (errs : ErrorList) : Except ErrorList Program :=
  match ErrorList.Err errs with
  | none => Except.ok prog
  | some e => Except.error e

/-- C1: ErrorList.Err returns nil exactly when the list is empty and the
non-empty list itself otherwise; consequently the caller receives either a
Program with a nil error (empty collector) or a non-empty diagnostic list
and no Program — never both, never neither. -/
theorem err_nil_iff_and_parse_exclusive :
    (∀ e : ErrorList, (ErrorList.Err e = none ↔ e = []) ∧
      (e ≠ [] → ErrorList.Err e = some e)) ∧
    (∀ (prog : Program) (errs : ErrorList),
      (errs = [] ∧ parseFileResult prog errs = Except.ok prog) ∨
      (errs ≠ [] ∧ parseFileResult prog errs = Except.error errs ∧
        ∀ p, parseFileResult prog errs ≠ Except.ok p)) := by
  have herr : ∀ e : ErrorList, e ≠ [] → ErrorList.Err e = some e := by
    intro e hne
    unfold ErrorList.Err
    rw [if_neg (by simpa using hne)]
  constructor
  · intro e
    refine ⟨?_, herr e⟩
    constructor
    · intro h
      by_contra hne
      rw [herr e hne] at h
      exact Option.noConfusion h
    · intro h
      subst h
      rfl
  · intro prog errs
    by_cases h : errs = []
    · subst h
      exact Or.inl ⟨rfl, rfl⟩
    · refine Or.inr ⟨h, ?_, ?_⟩
      · unfold parseFileResult
        rw [herr errs h]
      · intro p hcontra
        unfold parseFileResult at hcontra
        rw [herr errs h] at hcontra
        exact Except.noConfusion hcontra

/-- Witness for err_nil_iff_and_parse_exclusive: a concrete one-element
list is returned as-is by Err. -/
theorem err_nil_iff_and_parse_exclusive_witness :
    ErrorList.Err [⟨"m", 1, 1, 0⟩] = some [⟨"m", 1, 1, 0⟩] :=
  (err_nil_iff_and_parse_exclusive.1 [⟨"m", 1, 1, 0⟩]).2 (List.cons_ne_nil _ _)

/-- C4: externally exposed positions are 0-based: the serializer writes
i - 1 for any set position i ≥ 1 and 0 for the unset sentinel, so the
sentinel and a position at the first source byte both render as 0, and
writePosition emits exactly these values for start and end. -/
theorem estree_pos_normalized :
    (∀ i : Idx, 1 ≤ i → toESTreePos i = i - 1) ∧
    toESTreePos 0 = 0 ∧ toESTreePos 1 = 0 ∧
    (∀ i0 i1 : Idx, writePosition i0 i1 =
      "\"start\":" ++ Nat.repr (toESTreePos i0) ++ ",\"end\":" ++
        Nat.repr (toESTreePos i1)) := by
  refine ⟨?_, rfl, rfl, ?_⟩
  · intro i hi
    have h : ¬ i = 0 := Nat.one_le_iff_ne_zero.mp hi
    unfold toESTreePos
    rw [if_neg h]
  · intro i0 i1
    unfold writePosition
    rw [writeInt_eq_repr, writeInt_eq_repr]

/-- Witness for estree_pos_normalized at the concrete set position 5. -/
theorem estree_pos_normalized_witness : toESTreePos 5 = 5 - 1 :=
  estree_pos_normalized.1 5 (by decide)

/-- C6: serializing a Program whose body is empty never reaches the
panicking span accessors (the result is `some`, not a panic) and emits
exactly the bare node without start and end; a CaseStatement with an empty
consequent emits only the start field, taken from the case keyword's
position. -/
theorem serialize_empty_spans_no_panic :
    (visitProgram ⟨[]⟩ = some ("\x7b\"type\":\"Program\",\"body\":[]\x7d")) ∧
    (∀ (t : Option Expr) (c : Idx),
      visitCaseStatement ⟨c, t, []⟩ =
        some ("\x7b\"type\":\"SwitchCase\",\"test\":" ++
          (match t with
           | some x => serializeExpr x
           | none => "null") ++
          ",\"consequent\":[]," ++ "\"start\":" ++ writeInt (toESTreePos c) ++ "\x7d")) := by
  constructor
  · rfl
  · intro t c
    have hfold : ∀ r : String,
        (",\"consequent\":[" : String) ++ ("]," ++ r) = ",\"consequent\":[]," ++ r := by
      intro r
      rw [← String.append_assoc]
      rfl
    have hfoldStart : ∀ r : String,
        (",\"consequent\":[]," : String) ++ ("\"start\":" ++ r) =
          ",\"consequent\":[],\"start\":" ++ r := by
      intro r
      rw [← String.append_assoc]
      rfl
    cases t with
    | none => rfl
    | some x =>
      have hsl : serializeStmtList ([] : List Stmt) = "" := rfl
      have hemp : ∀ r : String, ("" : String) ++ r = r := fun _ => rfl
      simp [visitCaseStatement, writePositionStartOnly, String.append_assoc, hsl, hemp,
        hfold, hfoldStart]

/-- The spec-side optional scopeContext field: present, carrying the
stamp's decimal value, exactly when the stamp is nonzero; the default 0
(unresolved/unannotated) is not emitted. -/
def scopeContextField (sc : Nat) : String :=
  if sc = 0 then "" else ",\"scopeContext\":" ++ Nat.repr sc

/-- C8: for identifiers, block statements and function nodes the serializer
output carries a scopeContext field if and only if the node's stamp is
nonzero, with the emitted integer equal to the stamp; stamps of 0 yield no
field. -/
theorem scope_context_emitted_iff :
    (∀ n : Ident, visitIdentifier n =
      "\x7b\"type\":\"Identifier\",\"name\":" ++ writeString n.name ++
        scopeContextField n.scopeContext ++ "," ++
        writePosition n.idx0 n.idx1 ++ "\x7d") ∧
    (∀ (list : List Stmt) (sc : Nat) (i0 i1 : Idx),
      serializeStmt (.block list sc i0 i1) =
        "\x7b\"type\":\"BlockStatement\",\"body\":[" ++ serializeStmtList list ++ "]" ++
          scopeContextField sc ++ "," ++ writePosition i0 i1 ++ "\x7d") ∧
    (∀ n : FunctionLit, visitFunctionLiteral n =
      "\x7b\"type\":\"FunctionExpression\",\"id\":" ++
        (match n.name with
         | some id => visitIdentifier id
         | none => "null") ++
        ",\"params\":[" ++ serializeParamList n.params ++
        (match n.rest with
         | some r =>
           (if n.params.length > 0 then "," else "") ++
             "\x7b\"type\":\"RestElement\",\"argument\":" ++ visitIdentifier r ++ "\x7d"
         | none => "") ++
        "],\"body\":" ++ serializeStmt n.body ++
        ",\"generator\":" ++ writeBool n.generator ++
        ",\"async\":" ++ writeBool n.async ++
        scopeContextField n.scopeContext ++
        "," ++ writePosition n.idx0 n.idx1 ++ "\x7d") := by
  have hfield : ∀ sc : Nat,
      (if sc ≠ 0 then ",\"scopeContext\":" ++ writeInt sc else "") = scopeContextField sc := by
    intro sc
    unfold scopeContextField
    by_cases h : sc = 0
    · simp [h]
    · simp [h, writeInt_eq_repr]
  refine ⟨?_, ?_, ?_⟩
  · intro n
    unfold visitIdentifier
    rw [hfield]
  · intro list sc i0 i1
    rw [serializeStmt, hfield]
  · intro n
    unfold visitFunctionLiteral
    rw [hfield]

/-! ## Unexpected-token diagnostics (package parser) -/

/-- The token kinds distinguished by errorUnexpectedToken, plus
representative members of its default class. -/
inductive GoToken where
  | eof
  | boolean
  | null
  | identifier
  | keyword
  | escapedReservedWord
  | number
  | stringLit
  | illegal
  | plus
  | lparen
deriving Repr, DecidableEq

/-- Modelled from the spec: the token package is not under src; String()
yields the token's text. Only the default-class values (illegal, plus,
lparen) are reached through this function by the embedded code — Eof is
answered before the text is read, Boolean and Null are overridden by the
parser's literal, and the remaining kinds get fixed messages. -/
def GoToken.text : GoToken → String
  | .eof => "EOF"
  | .boolean => "boolean"
  | .null => "null"
  | .identifier => "identifier"
  | .keyword => "keyword"
  | .escapedReservedWord => "escaped reserved word"
  | .number => "number"
  | .stringLit => "string"
  | .illegal => "ILLEGAL"
  | .plus => "+"
  | .lparen => "("

/-- parser.errorUnexpectedToken: the message recorded for an unexpected
token (p.error formats the message and records it through ErrorList.Add;
this function is that message). The literal argument is the parser's
p.literal — the token's text as written in the source. -/
def errorUnexpectedToken (tkn : GoToken) (literal : String) : String :=
  match tkn with
  | .eof => "Unexpected end of input"
  | _ =>
    let value :=
      match tkn with
      | .boolean => literal
      | .null => literal
      | _ => tkn.text
    match tkn with
    | .identifier => "Unexpected identifier"
    | .keyword => "Unexpected reserved word"
    | .escapedReservedWord => "Keyword must not contain escaped characters"
    | .number => "Unexpected number"
    | .stringLit => "Unexpected string"
    | _ => "Unexpected token " ++ value

/-- C7: the token-kind-specific diagnostic messages: Eof, Identifier,
Keyword, EscapedReservedWord, Number and String get their fixed messages;
Boolean and Null get "Unexpected token " followed by the literal as written
in the source; every other token gets "Unexpected token " followed by the
token's text. -/
theorem unexpected_token_messages (lit : String) :
    errorUnexpectedToken .eof lit = "Unexpected end of input" ∧
    errorUnexpectedToken .identifier lit = "Unexpected identifier" ∧
    errorUnexpectedToken .keyword lit = "Unexpected reserved word" ∧
    errorUnexpectedToken .escapedReservedWord lit
      = "Keyword must not contain escaped characters" ∧
    errorUnexpectedToken .number lit = "Unexpected number" ∧
    errorUnexpectedToken .stringLit lit = "Unexpected string" ∧
    errorUnexpectedToken .boolean lit = "Unexpected token " ++ lit ∧
    errorUnexpectedToken .null lit = "Unexpected token " ++ lit ∧
    errorUnexpectedToken .plus lit = "Unexpected token " ++ GoToken.text .plus ∧
    errorUnexpectedToken .lparen lit = "Unexpected token " ++ GoToken.text .lparen ∧
    errorUnexpectedToken .illegal lit = "Unexpected token " ++ GoToken.text .illegal :=
  ⟨rfl, rfl, rfl, rfl, rfl, rfl, rfl, rfl, rfl, rfl, rfl⟩

/-! ## Serializer buffer pool (sync.Pool and the no-copy String) -/

/-- The backing array of the pooled output buffer after a Serialize call:
the call resets the length to zero (s.out = s.out[:0]) and appends its
output, overwriting the prefix of the backing bytes in place; bytes beyond
the new length survive, since append reuses the backing array while the
pool's preallocated capacity suffices. -/
def bufOverwrite (backing content : List Char) : List Char :=
  content ++ backing.drop content.length

/-- The value Serializer.String returns: unsafe.String builds a string
header aliasing the live buffer bytes without copying, so the returned
value is a length into the pooled backing array, not an immutable copy. -/
structure UnsafeStr where
  len : Nat
deriving Repr, DecidableEq

/-- One Serialize call, on the schedule where sync.Pool hands back the same
Serializer object it was given: reset, append, no-copy String, Put. -/
def serializeIntoPool (backing content : List Char) : List Char × UnsafeStr :=
  (bufOverwrite backing content, UnsafeStr.mk content.length)

/-- Reading a previously returned string observes the pooled backing bytes
as they are at read time. -/
def readUnsafeStr (backing : List Char) (r : UnsafeStr) : List Char :=
  backing.take r.len

/-- C5 evaluation: a Serialize call returns a 4-byte string that reads back
correctly, but a second Serialize call producing 2 bytes overwrites the
recycled buffer, after which the first returned string reads back as
"BBAA" — the buffer recycled through the pool aliases the string
previously returned to the caller, so the earlier result is changed by the
later call. -/
theorem serializer_pool_aliasing_eval :
    readUnsafeStr (serializeIntoPool [] "AAAA".data).1 (serializeIntoPool [] "AAAA".data).2
      = "AAAA".data ∧
    readUnsafeStr (serializeIntoPool (serializeIntoPool [] "AAAA".data).1 "BB".data).1
      (serializeIntoPool [] "AAAA".data).2 = "BBAA".data ∧
    ("BBAA".data ≠ "AAAA".data) := by
  decide

/-! ## Operator precedence (parser, modelled from the spec) -/

/-- Modelled from the spec: the parser package is not under src. The
operator tree produced by expression parsing, shorn of positions. -/
inductive OpTree where
  | num (n : Nat)
  | bin (op : BinOp) (l r : OpTree)
deriving Repr, DecidableEq

/-- A token of an additive/multiplicative expression. -/
inductive PTok where
  | num (n : Nat)
  | op (o : BinOp)
deriving Repr, DecidableEq

/-- Modelled from the spec: + and - share one precedence level, and *, /, %
share a strictly higher one. -/
def opPrec : BinOp → Nat
  | .plus => 11
  | .minus => 11
  | .mul => 12
  | .div => 12
  | .mod => 12

/-- A primary expression of this fragment: a number literal. -/
def parsePrimary : List PTok → Option (OpTree × List PTok)
  | .num n :: rest => some (.num n, rest)
  | _ => none

/-- Modelled from the spec: precedence climbing with left-associative
binary operators — while the next operator's precedence is at least the
minimum, its right operand is parsed with a strictly higher minimum, and
the accumulated tree becomes the new left operand; fuel bounds the loop by
the token count. -/
def climbOps (fuel : Nat) (minPrec : Nat) (lhs : OpTree) (toks : List PTok) :
    OpTree × List PTok :=
  match fuel with
  | 0 => (lhs, toks)
  | fuel + 1 =>
    match toks with
    | .op o :: rest =>
      if minPrec ≤ opPrec o then
        match parsePrimary rest with
        | some (rhs0, rest1) =>
          let step := climbOps fuel (opPrec o + 1) rhs0 rest1
          climbOps fuel minPrec (.bin o lhs step.1) step.2
        | none => (lhs, toks)
      else (lhs, toks)
    | _ => (lhs, toks)

/-- Modelled from the spec: parse a whole expression, requiring the token
stream to be exhausted. -/
def parseExpression (toks : List PTok) : Option OpTree :=
  match parsePrimary toks with
  | some (lhs, rest) =>
    match climbOps toks.length 0 lhs rest with
    | (t, []) => some t
    | _ => none
  | none => none

/-- C9: the token stream of `1 + 2 - 3 * 4 / 5 % 6` parses as
((1+2) - (((3*4)/5)%6)): + and - are left-associative at one level and
*, /, % are left-associative at a strictly higher level. -/
theorem precedence_example_tree :
    parseExpression
      [.num 1, .op .plus, .num 2, .op .minus, .num 3, .op .mul, .num 4,
       .op .div, .num 5, .op .mod, .num 6] =
      some (.bin .minus (.bin .plus (.num 1) (.num 2))
        (.bin .mod (.bin .div (.bin .mul (.num 3) (.num 4)) (.num 5)) (.num 6))) := by
  rfl
